import Mathlib

/-!
Verification of the cftoken configuration-resolution and policy-construction
engine, shallowly embedded from the Go sources (cmd/cftoken/main.go,
internal/config/config.go, internal/config/zones.go,
internal/cloudflare/client.go, internal/template/render.go).

Go strings are modelled as lists of runes (`List Char`). Go standard-library
functions called by the code (strings, unicode, net/netip, time,
text/template, encoding/json) are modelled by executable Lean definitions
that follow the documented library behaviour; each such model says so in its
doc comment. Repository functions are embedded one-to-one and keep their Go
names.
-/

namespace Cftoken

/-- Go strings, modelled as lists of runes (Unicode scalar values). -/
abbrev GoStr := List Char

/-- Rune list of a Lean string literal, for writing concrete inputs. -/
def gs (s : String) : GoStr := s.data

/-! ### Models of Go string and rune primitives -/

/-- Models Go `unicode.IsSpace`: the Unicode White_Space property
(the complete set of White_Space code points). -/
def goIsSpace (c : Char) : Bool :=
  decide (c.toNat = 32 ∨ (9 ≤ c.toNat ∧ c.toNat ≤ 13) ∨ c.toNat = 0x85 ∨ c.toNat = 0xA0 ∨
    c.toNat = 0x1680 ∨ (0x2000 ≤ c.toNat ∧ c.toNat ≤ 0x200A) ∨ c.toNat = 0x2028 ∨
    c.toNat = 0x2029 ∨ c.toNat = 0x202F ∨ c.toNat = 0x205F ∨ c.toNat = 0x3000)

/-- Lowercases one rune: models the per-rune action of Go `strings.ToLower`
on the ASCII range, the only range the repository's comparisons exercise;
runes outside A-Z are returned unchanged. -/
def toLowerChar (c : Char) : Char :=
  if 65 ≤ c.toNat ∧ c.toNat ≤ 90 then Char.ofNat (c.toNat + 32) else c

/-- Models Go `strings.ToLower`. -/
def toLower (s : GoStr) : GoStr := s.map toLowerChar

/-- Models Go `strings.EqualFold` (simple case folding, ASCII-range model). -/
def equalFold (a b : GoStr) : Bool := toLower a == toLower b

/-- Models Go `strings.TrimSpace`: drops leading and trailing White_Space
runes. -/
def trimSpace (s : GoStr) : GoStr :=
  ((s.dropWhile goIsSpace).reverse.dropWhile goIsSpace).reverse

/-- The separator runes deleted by the `strings.NewReplacer(" ", "", "_", "",
"-", "", ":", "", ".", "")` of `normalizeKey`: space (32), underscore (95),
hyphen (45), colon (58), period (46). -/
def isSepChar (c : Char) : Bool :=
  decide (c.toNat = 32 ∨ c.toNat = 95 ∨ c.toNat = 45 ∨ c.toNat = 58 ∨ c.toNat = 46)

/-- Models the `replacer.Replace` call of `normalizeKey`: with every pattern
a single rune and every replacement empty, the replacer deletes those runes. -/
def removeSeps (s : GoStr) : GoStr := s.filter (fun c => !isSepChar c)

/-- Embeds `normalizeKey` (internal/cloudflare/client.go): lowercase, trim
surrounding whitespace, then delete space, underscore, hyphen, colon and
period runes. -/
def normalizeKey (s : GoStr) : GoStr :=
  removeSeps (trimSpace (toLower s))

/-- Models Go `strings.TrimSuffix` for the one-rune suffix `"."`. -/
def trimDotSuffix (s : GoStr) : GoStr :=
  match s.reverse with
  | '.' :: rest => rest.reverse
  | _ => s

/-- Embeds `normalizeZoneName` (internal/config/zones.go): trim, lowercase,
drop one trailing dot. -/
def normalizeZoneName (s : GoStr) : GoStr :=
  trimDotSuffix (trimSpace (toLower s))

/-! ### Permission resolver (internal/cloudflare/client.go) -/

/-- A permission catalog entry as consumed by `matchPermissionGroups`:
`ID`, `Name`, and the `Meta.Key` alias. -/
structure PermissionGroup where
  id : GoStr
  name : GoStr
  metaKey : GoStr
deriving DecidableEq, Repr

/-- Errors of `matchPermissionGroups`: the empty-input error and the
per-input not-found error (which names the unresolved input). -/
inductive PermMatchError where
  | noPermissionsSpecified
  | permissionNotFound (input : GoStr)
deriving DecidableEq, Repr

/-- One catalog entry's three-way test from the `switch` inside
`matchPermissionGroups`: case-insensitive id equality, then normalized name
equality, then (when the meta key is nonempty) normalized meta-key
equality. -/
def entryMatches (inp : GoStr) (g : PermissionGroup) : Bool :=
  equalFold inp g.id || (normalizeKey g.name == normalizeKey inp)
    || (!g.metaKey.isEmpty && (normalizeKey g.metaKey == normalizeKey inp))

/-- The inner `for _, group := range groups` scan of `matchPermissionGroups`:
the first catalog entry (in catalog order) matching the input by any of the
three strategies. -/
def findMatch (groups : List PermissionGroup) (inp : GoStr) : Option PermissionGroup :=
  groups.find? (entryMatches inp)

/-- The outer `for _, in := range inputs` loop of `matchPermissionGroups`. -/
def matchPermissionLoop (groups : List PermissionGroup) :
    List GoStr → Except PermMatchError (List GoStr × List PermissionGroup)
  | [] => .ok ([], [])
  | inp :: rest =>
    match findMatch groups inp with
    | none => .error (.permissionNotFound inp)
    | some g =>
      match matchPermissionLoop groups rest with
      | .ok (ids, es) => .ok (g.id :: ids, g :: es)
      | .error e => .error e

/-- Embeds `matchPermissionGroups` (internal/cloudflare/client.go): empty
inputs error; otherwise each input in order resolves to the id of the first
matching catalog entry, and the whole call fails on the first input with no
match. The returned ids model the `TokenPolicyPermissionGroupParam{ID: ...}`
values. -/
def matchPermissionGroups (groups : List PermissionGroup) (inputs : List GoStr) :
    Except PermMatchError (List GoStr × List PermissionGroup) :=
  if inputs = [] then .error .noPermissionsSpecified
  else matchPermissionLoop groups inputs

/-! ### CIDR validation (models net.ParseCIDR / netip.ParseAddr) -/

/-- Decimal digit test for runes. -/
def isDigitChar (c : Char) : Bool := decide (48 ≤ c.toNat ∧ c.toNat ≤ 57)

/-- Value of a decimal digit rune. -/
def digitVal (c : Char) : Nat := c.toNat - 48

/-- Hexadecimal digit test for runes. -/
def isHexDigitChar (c : Char) : Bool :=
  decide ((48 ≤ c.toNat ∧ c.toNat ≤ 57) ∨ (97 ≤ c.toNat ∧ c.toNat ≤ 102) ∨
    (65 ≤ c.toNat ∧ c.toNat ≤ 70))

/-- Splits a rune list at the first occurrence of `sep`, if any. -/
def splitFirst (sep : Char) : GoStr → Option (GoStr × GoStr)
  | [] => none
  | c :: rest =>
    if c = sep then some ([], rest)
    else match splitFirst sep rest with
      | some (a, b) => some (c :: a, b)
      | none => none

/-- Splits on every occurrence of `sep`, keeping empty fields. -/
def splitAll (sep : Char) : GoStr → List GoStr
  | [] => [[]]
  | c :: rest =>
    let r := splitAll sep rest
    if c = sep then [] :: r
    else match r with
      | a :: t => (c :: a) :: t
      | [] => [[c]]

/-- Numeric value of a digit field. -/
def fieldVal (f : GoStr) : Nat := f.foldl (fun n c => n * 10 + digitVal c) 0

/-- One dotted-quad field per netip.parseIPv4Fields: 1-3 decimal digits, no
leading zero unless the field is exactly "0", value at most 255. -/
def ipv4FieldOk (f : GoStr) : Bool :=
  !f.isEmpty && decide (f.length ≤ 3) && f.all isDigitChar &&
    (decide (f.length = 1) || !(f.headD 'x' == '0')) && decide (fieldVal f ≤ 255)

/-- Models netip.parseIPv4 acceptance: exactly four valid dotted-quad
fields. -/
def parseIPv4Ok (s : GoStr) : Bool :=
  let fields := splitAll '.' s
  decide (fields.length = 4) && fields.all ipv4FieldOk

/-- Counts the leading hexadecimal digits (the hex-digit loop of
netip.parseIPv6) and returns the remainder. -/
def takeHexDigits : GoStr → Nat × GoStr
  | [] => (0, [])
  | c :: rest =>
    if isHexDigitChar c then
      let (n, r) := takeHexDigits rest
      (n + 1, r)
    else (0, c :: rest)

/-- The checks performed when netip.parseIPv6's main loop exits: no trailing
input; fewer than 16 bytes filled requires an ellipsis, exactly 16 forbids
one. -/
def v6FinalOk (i : Nat) (ellipsis : Option Nat) (s : GoStr) : Bool :=
  s.isEmpty && (if i < 16 then ellipsis.isSome else ellipsis.isNone)

/-- The main loop of netip.parseIPv6 over colon-separated hex groups, with
`i` bytes filled so far and the position of the `::` ellipsis if seen. -/
def parseIPv6Loop : Nat → GoStr → Nat → Option Nat → Bool
  | 0, _, _, _ => false
  | fuel + 1, s, i, ellipsis =>
    if i < 16 then
      let (off, rest) := takeHexDigits s
      if off = 0 then false
      else if 4 < off then false
      else
        match rest with
        | '.' :: _ =>
          (ellipsis.isSome || decide (i = 12)) && decide (i + 4 ≤ 16) && parseIPv4Ok s &&
            v6FinalOk (i + 4) ellipsis []
        | [] => v6FinalOk (i + 2) ellipsis []
        | ':' :: rest2 =>
          match rest2 with
          | [] => false
          | ':' :: rest3 =>
            if ellipsis.isSome then false
            else match rest3 with
              | [] => v6FinalOk (i + 2) (some (i + 2)) []
              | _ => parseIPv6Loop fuel rest3 (i + 2) (some (i + 2))
          | _ => parseIPv6Loop fuel rest2 (i + 2) ellipsis
        | _ => false
    else v6FinalOk i ellipsis s

/-- Models netip.parseIPv6 acceptance (zones are rejected earlier, in
`goParseAddrBitLen`). -/
def parseIPv6Ok (s : GoStr) : Bool :=
  match s with
  | ':' :: ':' :: rest =>
    if rest.isEmpty then true else parseIPv6Loop (rest.length + 1) rest 0 (some 0)
  | _ => parseIPv6Loop (s.length + 1) s 0 none

/-- The dispatch scan of netip.ParseAddr: the first of '.', ':' or '%'
decides the address family. -/
def addrKindScan : GoStr → Option Char
  | [] => none
  | c :: rest => if c = '.' ∨ c = ':' ∨ c = '%' then some c else addrKindScan rest

/-- Models netip.ParseAddr as used by net.ParseCIDR: the bit length of the
parsed address, or none when parsing fails or the address carries a zone
(net.ParseCIDR rejects both a zone and a zone parse failure, so any '%'
makes the address invalid here). -/
def goParseAddrBitLen (s : GoStr) : Option Nat :=
  match addrKindScan s with
  | some '.' => if parseIPv4Ok s then some 32 else none
  | some ':' =>
    if s.contains '%' then none
    else if parseIPv6Ok s then some 128 else none
  | _ => none

/-- Models net.dtoi: decimal parse with the 0xFFFFFF cutoff, returning
(value, runes consumed, ok); accumulator and count start at 0. -/
def dtoi : GoStr → Nat → Nat → Nat × Nat × Bool
  | [], n, i => (n, i, decide (i ≠ 0))
  | c :: rest, n, i =>
    if isDigitChar c then
      let n2 := n * 10 + digitVal c
      if 0xFFFFFF ≤ n2 then (0xFFFFFF, i, false)
      else dtoi rest n2 (i + 1)
    else (n, i, decide (i ≠ 0))

/-- Models net.ParseCIDR validity: an address, '/', and a fully-consumed
decimal mask no larger than the address's bit length. -/
def goIsValidCIDR (s : GoStr) : Bool :=
  match splitFirst '/' s with
  | none => false
  | some (addr, mask) =>
    match goParseAddrBitLen addr with
    | none => false
    | some bl =>
      match dtoi mask 0 0 with
      | (n, i, ok) => ok && decide (i = mask.length) && decide (n ≤ bl)

/-- The error of `normalizeCIDRList`, carrying the offending (trimmed)
literal from `invalid CIDR %q`. -/
inductive CIDRError where
  | invalidCIDR (literal : GoStr)
deriving DecidableEq, Repr

/-- Embeds `normalizeCIDRList` (cmd/cftoken/main.go): trims entries, skips
empties, returns (nil, true) as soon as the 0.0.0.0/32 sentinel is reached,
and fails on the first invalid CIDR encountered before that. -/
def normalizeCIDRList : List GoStr → Except CIDRError (List GoStr × Bool)
  | [] => .ok ([], false)
  | v :: rest =>
    let c := trimSpace v
    if c = [] then normalizeCIDRList rest
    else if c = gs "0.0.0.0/32" then .ok ([], true)
    else if goIsValidCIDR c then
      match normalizeCIDRList rest with
      | .ok (out, false) => .ok (c :: out, false)
      | other => other
    else .error (.invalidCIDR c)

/-! ### JSON values and parser (models encoding/json) -/

/-- A JSON value, as produced by encoding/json when decoding into a Go
interface value. -/
inductive JsonVal where
  | null
  | bool (b : Bool)
  | num (raw : GoStr)
  | str (s : GoStr)
  | arr (items : List JsonVal)
  | obj (fields : List (GoStr × JsonVal))

/-- JSON structural whitespace (space, tab, newline, carriage return). -/
def isJsonWs (c : Char) : Bool := c = ' ' || c = '\t' || c = '\n' || c = '\r'

/-- Drops leading JSON whitespace. -/
def skipWs (s : GoStr) : GoStr := s.dropWhile isJsonWs

/-- JSON string escape characters. -/
def escChar : Char → Option Char
  | '"' => some '"'
  | '\\' => some '\\'
  | '/' => some '/'
  | 'b' => some '\x08'
  | 'f' => some '\x0C'
  | 'n' => some '\n'
  | 'r' => some '\r'
  | 't' => some '\t'
  | _ => none

/-- Value of a hexadecimal digit rune. -/
def hexVal (c : Char) : Nat :=
  if c.toNat ≤ 57 then c.toNat - 48
  else if c.toNat ≤ 70 then c.toNat - 55
  else c.toNat - 87

/-- Decodes a \uXXXX escape; surrogate halves become U+FFFD as in Go's
decoder (surrogate pairs are not combined in this model). -/
def jsonUniChar (a b c d : Char) : Char :=
  let n := ((hexVal a * 16 + hexVal b) * 16 + hexVal c) * 16 + hexVal d
  if 0xD800 ≤ n ∧ n ≤ 0xDFFF then Char.ofNat 0xFFFD else Char.ofNat n

/-- Parses the body of a JSON string (after the opening quote), rejecting
unescaped control characters as encoding/json does. -/
def parseJsonString : GoStr → Option (GoStr × GoStr)
  | [] => none
  | '"' :: r => some ([], r)
  | '\\' :: 'u' :: a :: b :: c :: d :: r2 =>
    if isHexDigitChar a && isHexDigitChar b && isHexDigitChar c && isHexDigitChar d then
      (parseJsonString r2).map (fun p => (jsonUniChar a b c d :: p.1, p.2))
    else none
  | '\\' :: e :: r2 =>
    match escChar e with
    | some ec => (parseJsonString r2).map (fun p => (ec :: p.1, p.2))
    | none => none
  | c :: r =>
    if c.toNat < 32 then none
    else (parseJsonString r).map (fun p => (c :: p.1, p.2))

/-- Integer part of a JSON number: "0" or a nonzero digit followed by
digits. -/
def numInt : GoStr → Option (GoStr × GoStr)
  | [] => none
  | c :: rest =>
    if c = '0' then some ([c], rest)
    else if isDigitChar c then
      some (c :: rest.takeWhile isDigitChar, rest.dropWhile isDigitChar)
    else none

/-- Optional fraction part of a JSON number. -/
def numFrac : GoStr → Option (GoStr × GoStr)
  | '.' :: r =>
    let ds := r.takeWhile isDigitChar
    if ds = [] then none else some ('.' :: ds, r.dropWhile isDigitChar)
  | r => some ([], r)

/-- Optional exponent part of a JSON number. -/
def numExp : GoStr → Option (GoStr × GoStr)
  | [] => some ([], [])
  | c :: r =>
    if c = 'e' ∨ c = 'E' then
      let (sg, r1) : GoStr × GoStr := match r with
        | '+' :: r2 => (['+'], r2)
        | '-' :: r2 => (['-'], r2)
        | r2 => ([], r2)
      let ds := r1.takeWhile isDigitChar
      if ds = [] then none else some (c :: (sg ++ ds), r1.dropWhile isDigitChar)
    else some ([], c :: r)

/-- Parses a JSON number, keeping its raw spelling. -/
def parseJsonNum (s : GoStr) : Option (JsonVal × GoStr) := do
  let (sign, s1) : GoStr × GoStr := match s with
    | '-' :: r => (['-'], r)
    | r => ([], r)
  let (ip, s2) ← numInt s1
  let (fp, s3) ← numFrac s2
  let (ep, s4) ← numExp s3
  some (.num (sign ++ ip ++ fp ++ ep), s4)

mutual

/-- Recursive-descent JSON value parser, fuelled by input length. -/
def parseJsonVal : Nat → GoStr → Option (JsonVal × GoStr)
  | 0, _ => none
  | fuel + 1, s =>
    match skipWs s with
    | 'n' :: 'u' :: 'l' :: 'l' :: r => some (.null, r)
    | 't' :: 'r' :: 'u' :: 'e' :: r => some (.bool true, r)
    | 'f' :: 'a' :: 'l' :: 's' :: 'e' :: r => some (.bool false, r)
    | '"' :: r => (parseJsonString r).map (fun p => (.str p.1, p.2))
    | '[' :: r =>
      (match skipWs r with
       | ']' :: r2 => some (.arr [], r2)
       | _ => (parseJsonArrItems fuel r).map (fun p => (.arr p.1, p.2)))
    | '\x7b' :: r =>
      (match skipWs r with
       | '\x7d' :: r2 => some (.obj [], r2)
       | _ => (parseJsonObjItems fuel r).map (fun p => (.obj p.1, p.2)))
    | r => parseJsonNum r

/-- Comma-separated JSON array items up to the closing bracket. -/
def parseJsonArrItems : Nat → GoStr → Option (List JsonVal × GoStr)
  | 0, _ => none
  | fuel + 1, s => do
    let (v, r) ← parseJsonVal fuel s
    match skipWs r with
    | ',' :: r2 => (parseJsonArrItems fuel r2).map (fun p => (v :: p.1, p.2))
    | ']' :: r2 => some ([v], r2)
    | _ => none

/-- Comma-separated JSON object members up to the closing brace. -/
def parseJsonObjItems : Nat → GoStr → Option (List (GoStr × JsonVal) × GoStr)
  | 0, _ => none
  | fuel + 1, s =>
    match skipWs s with
    | '"' :: r => do
      let (k, r1) ← parseJsonString r
      match skipWs r1 with
      | ':' :: r2 => do
        let (v, r3) ← parseJsonVal fuel r2
        match skipWs r3 with
        | ',' :: r4 => (parseJsonObjItems fuel r4).map (fun p => ((k, v) :: p.1, p.2))
        | '\x7d' :: r4 => some ([(k, v)], r4)
        | _ => none
      | _ => none
    | _ => none

end

/-- Models json.Unmarshal's top level: one value followed by only
whitespace. -/
def parseJsonTop (s : GoStr) : Option JsonVal :=
  match parseJsonVal (s.length + 1) s with
  | some (v, rest) => if skipWs rest = [] then some v else none
  | none => none

/-! ### template.Policy and its JSON decoding (internal/template/render.go) -/

/-- `template.PermissionGroup`: a permission group reference inside a
policy. -/
structure TplPermissionGroup where
  id : GoStr
  name : GoStr

/-- `template.Policy`: a full token policy as decoded from rendered JSON. -/
structure TplPolicy where
  id : GoStr
  effect : GoStr
  resources : List (GoStr × JsonVal)
  permissionGroups : List TplPermissionGroup

/-- The zero `template.Policy` value that json.Unmarshal starts from. -/
def zeroTplPolicy : TplPolicy := ⟨[], [], [], []⟩

/-- encoding/json field-name matching: exact or case-insensitive
(EqualFold). -/
def jsonKeyMatches (key tag : GoStr) : Bool := key == tag || equalFold key tag

/-- json.Unmarshal of a JSON value into a string field: null keeps the
current value, a string replaces it, anything else is a type error. -/
def setStrField (cur : GoStr) : JsonVal → Option GoStr
  | .null => some cur
  | .str s => some s
  | _ => none

/-- Assoc-list update used when json.Unmarshal merges object members into a
map field. -/
def updateAssoc (m : List (GoStr × JsonVal)) (k : GoStr) (v : JsonVal) :
    List (GoStr × JsonVal) :=
  if m.any (fun p => p.1 == k) then
    m.map (fun p => if p.1 == k then (k, v) else p)
  else m ++ [(k, v)]

/-- json.Unmarshal into the `map[string]interface{}` resources field. -/
def setResourcesField (cur : List (GoStr × JsonVal)) : JsonVal → Option (List (GoStr × JsonVal))
  | .null => some cur
  | .obj fields => some (fields.foldl (fun m p => updateAssoc m p.1 p.2) cur)
  | _ => none

/-- json.Unmarshal of one permission-group array element. -/
def decodePermGroupElem (v : JsonVal) : Option TplPermissionGroup :=
  match v with
  | .null => some ⟨[], []⟩
  | .obj fields =>
    fields.foldlM (fun (pg : TplPermissionGroup) p =>
      if jsonKeyMatches p.1 (gs "id") then
        (setStrField pg.id p.2).map (fun x => { pg with id := x })
      else if jsonKeyMatches p.1 (gs "name") then
        (setStrField pg.name p.2).map (fun x => { pg with name := x })
      else some pg) ⟨[], []⟩
  | _ => none

/-- json.Unmarshal into the `[]PermissionGroup` field: null keeps the
current slice, an array replaces it. -/
def setPermGroupsField (cur : List TplPermissionGroup) :
    JsonVal → Option (List TplPermissionGroup)
  | .null => some cur
  | .arr xs => xs.mapM decodePermGroupElem
  | _ => none

/-- json.Unmarshal of one policy array element into `template.Policy`
(unknown object members are ignored, later duplicates win). -/
def decodePolicy (v : JsonVal) : Option TplPolicy :=
  match v with
  | .null => some zeroTplPolicy
  | .obj fields =>
    fields.foldlM (fun (pol : TplPolicy) p =>
      if jsonKeyMatches p.1 (gs "id") then
        (setStrField pol.id p.2).map (fun x => { pol with id := x })
      else if jsonKeyMatches p.1 (gs "effect") then
        (setStrField pol.effect p.2).map (fun x => { pol with effect := x })
      else if jsonKeyMatches p.1 (gs "resources") then
        (setResourcesField pol.resources p.2).map (fun x => { pol with resources := x })
      else if jsonKeyMatches p.1 (gs "permission_groups") then
        (setPermGroupsField pol.permissionGroups p.2).map
          (fun x => { pol with permissionGroups := x })
      else some pol) zeroTplPolicy
  | _ => none

/-- Models `json.Unmarshal([]byte(rendered), &policies)` for
`[]template.Policy`: the value must be an array of policy objects (or null,
which leaves the nil slice). -/
def decodePolicies : JsonVal → Option (List TplPolicy)
  | .null => some []
  | .arr xs => xs.mapM decodePolicy
  | _ => none

/-! ### Template engine (models text/template for the field-substitution
fragment the repository's templates use) -/

/-- A parsed template: literal text interleaved with `\x7b\x7b .Name \x7d\x7d`
field actions. -/
inductive TplNode where
  | lit (text : GoStr)
  | field (name : GoStr)

/-- Go template identifier runes (ASCII letters, digits, underscore). -/
def isIdentChar (c : Char) : Bool :=
  decide ((65 ≤ c.toNat ∧ c.toNat ≤ 90) ∨ (97 ≤ c.toNat ∧ c.toNat ≤ 122) ∨
    (48 ≤ c.toNat ∧ c.toNat ≤ 57) ∨ c.toNat = 95)

/-- Splits at the first action opener, returning the text before it and the
input after it. -/
def findAction : GoStr → Option (GoStr × GoStr)
  | [] => none
  | '\x7b' :: '\x7b' :: rest => some ([], rest)
  | c :: rest => (findAction rest).map (fun p => (c :: p.1, p.2))

/-- Parses one `.Name` field action up to and including the closing
delimiter. Only simple field actions are supported by this model; anything
else is a parse failure. -/
def parseAction (s : GoStr) : Option (GoStr × GoStr) :=
  let s1 := s.dropWhile (fun c => c = ' ' || c = '\t')
  match s1 with
  | '.' :: r =>
    let name := r.takeWhile isIdentChar
    let r2 := (r.dropWhile isIdentChar).dropWhile (fun c => c = ' ' || c = '\t')
    (match r2 with
     | '\x7d' :: '\x7d' :: rest => if name = [] then none else some (name, rest)
     | _ => none)
  | _ => none

/-- Models text/template parsing of a template made of text and field
actions, fuelled by input length. -/
def parseTemplateGo : Nat → GoStr → Option (List TplNode)
  | 0, _ => none
  | fuel + 1, s =>
    match findAction s with
    | none => some [.lit s]
    | some (before, after) =>
      match parseAction after with
      | some (name, rest) =>
        (parseTemplateGo fuel rest).map (fun nodes => .lit before :: .field name :: nodes)
      | none => none

mutual

/-- Models fmt printing of a variable value by text/template: strings print
verbatim, nil prints as the missing-value placeholder, slices print
Go-style. -/
def printJsonVar : JsonVal → GoStr
  | .null => gs "<no value>"
  | .bool true => gs "true"
  | .bool false => gs "false"
  | .num raw => raw
  | .str s => s
  | .arr xs => '[' :: printJsonVarList xs ++ [']']
  | .obj fields => gs "map[" ++ printJsonFieldList fields ++ [']']

/-- Space-separated slice elements, Go fmt style. -/
def printJsonVarList : List JsonVal → GoStr
  | [] => []
  | [x] => printJsonVar x
  | x :: xs => printJsonVar x ++ ' ' :: printJsonVarList xs

/-- Space-separated key:value map entries, Go fmt style (unsorted in this
model). -/
def printJsonFieldList : List (GoStr × JsonVal) → GoStr
  | [] => []
  | [(k, v)] => k ++ ':' :: printJsonVar v
  | (k, v) :: fs => k ++ ':' :: printJsonVar v ++ ' ' :: printJsonFieldList fs

end

/-- Map lookup in the template variable context. -/
def lookupVar (vars : List (GoStr × JsonVal)) (name : GoStr) : Option JsonVal :=
  (vars.find? (fun p => p.1 == name)).map (·.2)

/-- Execution of one node: a missing map key renders as text/template's
`<no value>` placeholder (the default missingkey option) and never errors. -/
def renderNode (vars : List (GoStr × JsonVal)) : TplNode → GoStr
  | .lit t => t
  | .field name =>
    match lookupVar vars name with
    | some v => printJsonVar v
    | none => gs "<no value>"

/-- Models tmpl.Execute over the parsed nodes. -/
def execTemplateNodes (nodes : List TplNode) (vars : List (GoStr × JsonVal)) : GoStr :=
  nodes.foldr (fun n acc => renderNode vars n ++ acc) []

/-- The errors of `RenderPolicies`: no source, unreadable file, template
parse failure, and rendered output that fails the JSON-as-policy parse
(carrying the rendered text). The execute step of the modelled fragment
cannot fail, so no execute error appears. -/
inductive RenderError where
  | noTemplateSource
  | templateReadError (path : GoStr)
  | templateParseError
  | templateOutputInvalid (rendered : GoStr)

/-- Embeds `RenderPolicies` (internal/template/render.go). File reading and
path expansion are modelled by the `readFile` oracle; the inline template
takes the file's place whenever it is nonempty, exactly as in the source. -/
def renderPolicies (readFile : GoStr → Option GoStr)
    (templatePath inlineTemplate : GoStr) (vars : List (GoStr × JsonVal)) :
    Except RenderError (List TplPolicy) :=
  if templatePath = [] ∧ inlineTemplate = [] then .error .noTemplateSource
  else
    let contentE : Except RenderError GoStr :=
      if inlineTemplate ≠ [] then .ok inlineTemplate
      else
        match readFile templatePath with
        | some data => .ok data
        | none => .error (.templateReadError templatePath)
    match contentE with
    | .error e => .error e
    | .ok content =>
      match parseTemplateGo (content.length + 1) content with
      | none => .error .templateParseError
      | some nodes =>
        let rendered := trimSpace (execTemplateNodes nodes vars)
        match parseJsonTop rendered with
        | some v =>
          match decodePolicies v with
          | some ps => .ok ps
          | none => .error (.templateOutputInvalid rendered)
        | none => .error (.templateOutputInvalid rendered)

/-! ### Zone configuration (internal/config/config.go) -/

/-- `config.ZoneConfig`: the extended per-zone record. -/
structure ZoneConfig where
  zoneID : GoStr
  permissions : List GoStr
  allowedCIDRs : List GoStr
  ttl : GoStr
  templateFile : GoStr
  templateInline : GoStr
  tplVars : List (GoStr × JsonVal)
  inheritDefaults : Bool

/-- One entry of the config.json `zones` map: a bare zone-id string, an
extended object, or any other JSON shape (invalid). -/
inductive ZoneValue where
  | simple (id : GoStr)
  | extended (zc : ZoneConfig)
  | invalid

/-- The parsed config.json `settings`; `zones = none` models a JSON document
with no zones map (a nil Go map). -/
structure Settings where
  defaultPermissions : List GoStr
  defaultAllowedCIDRs : List GoStr
  zones : Option (List (GoStr × ZoneValue))

/-- Errors of `LoadZoneConfig`. -/
inductive ZoneLoadError where
  | noZonesConfigured
  | zoneNotFound (name : GoStr)
  | invalidFormat (name : GoStr)
deriving DecidableEq, Repr

/-- Go map lookup `cfg.Zones[zoneName]` on the assoc-list model: the key is
compared verbatim. -/
def lookupZone (zones : List (GoStr × ZoneValue)) (name : GoStr) : Option ZoneValue :=
  (zones.find? (fun p => p.1 == name)).map (·.2)

/-- The `if zoneConfig.InheritDefaults` block of `LoadZoneConfig`: global
defaults are copied into an inheriting record whose own field is empty (and
only then). -/
def applyInheritDefaults (cfg : Settings) (zc : ZoneConfig) : ZoneConfig :=
  if zc.inheritDefaults then
    let zc1 := if zc.permissions = [] ∧ cfg.defaultPermissions ≠ [] then
      { zc with permissions := cfg.defaultPermissions } else zc
    if zc1.allowedCIDRs = [] ∧ cfg.defaultAllowedCIDRs ≠ [] then
      { zc1 with allowedCIDRs := cfg.defaultAllowedCIDRs } else zc1
  else zc

/-- Embeds `LoadZoneConfig` (internal/config/config.go): verbatim lookup of
the zone name, simple entries return (id, nil), extended entries apply
default inheritance and return the record. -/
def loadZoneConfig (cfg : Settings) (zoneName : GoStr) :
    Except ZoneLoadError (GoStr × Option ZoneConfig) :=
  match cfg.zones with
  | none => .error .noZonesConfigured
  | some zones =>
    match lookupZone zones zoneName with
    | none => .error (.zoneNotFound zoneName)
    | some (.simple id) => .ok (id, none)
    | some .invalid => .error (.invalidFormat zoneName)
    | some (.extended zc) =>
      let zc2 := applyInheritDefaults cfg zc
      .ok (zc2.zoneID, some zc2)

/-! ### Zone name table (internal/config/zones.go) -/

/-- The zone-id extraction of `sanitizeZones` for one entry value. -/
def sanitizeZoneValue : ZoneValue → Option GoStr
  | .simple id =>
    let t := trimSpace id
    if t = [] then none else some t
  | .extended zc =>
    let t := trimSpace zc.zoneID
    if t = [] then none else some t
  | .invalid => none

/-- Embeds `sanitizeZones` (internal/config/zones.go): normalizes names,
trims ids, drops empties. -/
def sanitizeZones (values : List (GoStr × ZoneValue)) : List (GoStr × GoStr) :=
  values.filterMap (fun p =>
    let n := normalizeZoneName p.1
    if n = [] then none else (sanitizeZoneValue p.2).map (fun id => (n, id)))

/-- Errors of `ResolveZoneID`. -/
inductive ResolveZoneError where
  | emptyName
  | notFound (name : GoStr)
deriving DecidableEq, Repr

/-- Embeds `ResolveZoneID` (internal/config/zones.go) over an
already-loaded zone map: the looked-up key is the normalized name. -/
def resolveZoneID (zones : List (GoStr × GoStr)) (zoneName : GoStr) :
    Except ResolveZoneError GoStr :=
  let name := normalizeZoneName zoneName
  if name = [] then .error .emptyName
  else
    match (zones.find? (fun p => p.1 == name)).map (·.2) with
    | some id => if id = [] then .error (.notFound zoneName) else .ok id
    | none => .error (.notFound zoneName)

/-! ### TTL resolution and expiry (cmd/cftoken/main.go, models
time.ParseDuration) -/

/-- Go time.Duration: a nanosecond count (int64 range enforced at parse
boundaries). -/
abbrev GoDuration := Int

/-- The hard-coded CLI default TTL of 8 hours (the -ttl flag default). -/
def defaultTTL : GoDuration := 8 * 3600000000000

/-- Models the time.ParseDuration unit table. -/
def durationUnit (u : GoStr) : Option Nat :=
  if u = gs "ns" then some 1
  else if u = gs "us" then some 1000
  else if u = gs "µs" then some 1000
  else if u = gs "μs" then some 1000
  else if u = gs "ms" then some 1000000
  else if u = gs "s" then some 1000000000
  else if u = gs "m" then some 60000000000
  else if u = gs "h" then some 3600000000000
  else none

/-- Models time.leadingInt: decimal accumulation with the uint64 overflow
error. -/
def leadingInt : GoStr → Nat → Option (Nat × GoStr)
  | [], x => some (x, [])
  | c :: rest, x =>
    if isDigitChar c then
      if x > 2 ^ 63 / 10 then none
      else
        let x2 := x * 10 + digitVal c
        if x2 > 2 ^ 63 then none
        else leadingInt rest x2
    else some (x, c :: rest)

/-- Models time.leadingFraction: digits after the decimal point, with
accumulation stopping silently on overflow. -/
def leadingFraction : GoStr → Nat → Nat → Bool → Nat × Nat × GoStr
  | [], x, scale, _ => (x, scale, [])
  | c :: rest, x, scale, overflow =>
    if isDigitChar c then
      if overflow then leadingFraction rest x scale true
      else if x > (2 ^ 63 - 1) / 10 then leadingFraction rest x scale true
      else
        let y := x * 10 + digitVal c
        if y > 2 ^ 63 then leadingFraction rest x scale true
        else leadingFraction rest y (scale * 10) false
    else (x, scale, c :: rest)

/-- One `number unit` element loop of time.ParseDuration (fraction
arithmetic is exact here where Go uses float64). -/
def parseDurationLoop : Nat → GoStr → Nat → Option Nat
  | 0, _, _ => none
  | fuel + 1, s, d =>
    match s with
    | [] => some d
    | c :: _ =>
      if ¬(c = '.' ∨ isDigitChar c) then none
      else
        match leadingInt s 0 with
        | none => none
        | some (v, s1) =>
          let pre := s1.length ≠ s.length
          let (f, scale, s2, post) : Nat × Nat × GoStr × Bool :=
            match s1 with
            | '.' :: r =>
              let (f, sc, s3) := leadingFraction r 0 1 false
              (f, sc, s3, s3.length ≠ r.length)
            | _ => (0, 1, s1, false)
          if ¬pre ∧ ¬post then none
          else
            let u := s2.takeWhile (fun ch => ¬(ch = '.' ∨ isDigitChar ch))
            let rest := s2.dropWhile (fun ch => ¬(ch = '.' ∨ isDigitChar ch))
            if u = [] then none
            else
              match durationUnit u with
              | none => none
              | some unit =>
                if v > 2 ^ 63 / unit then none
                else
                  let v2 := v * unit + f * unit / scale
                  if v2 > 2 ^ 63 then none
                  else
                    let d2 := d + v2
                    if d2 > 2 ^ 63 then none
                    else parseDurationLoop fuel rest d2

/-- Models time.ParseDuration, returning nanoseconds. -/
def parseGoDuration (s : GoStr) : Option GoDuration :=
  let (neg, s1) : Bool × GoStr := match s with
    | '-' :: r => (true, r)
    | '+' :: r => (false, r)
    | r => (false, r)
  if s1 = gs "0" then some 0
  else if s1 = [] then none
  else
    match parseDurationLoop (s1.length + 1) s1 0 with
    | none => none
    | some d =>
      if neg then some (-(d : Int))
      else if d > 2 ^ 63 - 1 then none
      else some (d : Int)

/-- Embeds the TTL-resolution step of `run` (cmd/cftoken/main.go lines
232-237): a present zone record with a nonempty, parseable ttl string
overwrites flags.ttl unconditionally; otherwise flags.ttl (the caller's
-ttl value, or the 8h flag default) stands. -/
def resolveTTL (flagTTL : GoDuration) (zoneConfig : Option ZoneConfig) : GoDuration :=
  match zoneConfig with
  | some zc =>
    if zc.ttl ≠ [] then
      match parseGoDuration zc.ttl with
      | some d => d
      | none => flagTTL
    else flagTTL
  | none => flagTTL

/-- Embeds the expiry computation of `run` (cmd/cftoken/main.go lines
311-315): a positive ttl yields creation time plus ttl, otherwise no expiry.
Times are nanoseconds since the epoch. -/
def computeExpiry (creationTime : Int) (ttl : GoDuration) : Option Int :=
  if ttl > 0 then some (creationTime + ttl) else none

/-! ### Token parameters from pre-rendered policies
(internal/cloudflare/client.go buildTokenParamsFromPolicies) -/

/-- `shared.TokenPolicyPermissionGroupParam`: the id reference sent to the
API. -/
structure TokenPolicyPermissionGroupParam where
  id : GoStr

/-- One `shared.TokenPolicyParam`; the effect is the
`shared.TokenPolicyEffect` string constant ("allow" or "deny"). -/
structure TokenPolicyParam where
  effect : GoStr
  permissionGroups : List TokenPolicyPermissionGroupParam
  resources : List (GoStr × GoStr)

/-- `cfuser.TokenNewParams`: the finished token-creation request; the
condition is present exactly when the CIDR list is nonempty. -/
structure TokenNewParams where
  name : GoStr
  policies : List TokenPolicyParam
  expiresOn : Option Int
  condition : Option (List GoStr)

/-- Errors of `buildTokenParamsFromPolicies`: the empty-policy-list error
and the invalid-effect error (carrying the offending effect value). -/
inductive BuildError where
  | noPolicies
  | invalidEffect (effect : GoStr)
deriving DecidableEq, Repr

mutual

/-- Models `fmt.Sprintf("%v", v)` for a JSON-decoded resource value. -/
def goFormatV : JsonVal → GoStr
  | .null => gs "<nil>"
  | .bool true => gs "true"
  | .bool false => gs "false"
  | .num raw => raw
  | .str s => s
  | .arr xs => '[' :: goFormatVList xs ++ [']']
  | .obj fields => gs "map[" ++ goFormatVFields fields ++ [']']

/-- Slice rendering for goFormatV. -/
def goFormatVList : List JsonVal → GoStr
  | [] => []
  | [x] => goFormatV x
  | x :: xs => goFormatV x ++ ' ' :: goFormatVList xs

/-- Map rendering for goFormatV (unsorted in this model). -/
def goFormatVFields : List (GoStr × JsonVal) → GoStr
  | [] => []
  | [(k, v)] => k ++ ':' :: goFormatV v
  | (k, v) :: fs => k ++ ':' :: goFormatV v ++ ' ' :: goFormatVFields fs

end

/-- The resources conversion inside `buildTokenParamsFromPolicies`: string
values pass through, other values are formatted with %v. -/
def convertResources (resources : List (GoStr × JsonVal)) : List (GoStr × GoStr) :=
  resources.map (fun p => (p.1, match p.2 with
    | .str sv => sv
    | v => goFormatV v))

/-- One iteration of the policy loop of `buildTokenParamsFromPolicies`:
permission groups keep their ids, resources are converted, an empty effect
defaults to allow, and any effect other than allow or deny is an error. -/
def buildPolicyParam (p : TplPolicy) : Except BuildError TokenPolicyParam :=
  let permGroups := p.permissionGroups.map (fun pg => TokenPolicyPermissionGroupParam.mk pg.id)
  let res := convertResources p.resources
  let effect := if p.effect = [] then gs "allow" else p.effect
  if effect = gs "allow" then .ok ⟨gs "allow", permGroups, res⟩
  else if effect = gs "deny" then .ok ⟨gs "deny", permGroups, res⟩
  else .error (.invalidEffect effect)

/-- The policy loop of `buildTokenParamsFromPolicies`, failing on the first
invalid policy. -/
def buildPolicyParams : List TplPolicy → Except BuildError (List TokenPolicyParam)
  | [] => .ok []
  | p :: rest =>
    match buildPolicyParam p with
    | .error e => .error e
    | .ok pp =>
      match buildPolicyParams rest with
      | .ok pps => .ok (pp :: pps)
      | .error e => .error e

/-- Embeds `buildTokenParamsFromPolicies` (internal/cloudflare/client.go):
at least one policy is required; each policy is converted in order; the
condition block is attached only for a nonempty CIDR list. The policies it
receives from main.go are the rendered template policies converted
field-for-field, so they are taken here directly as `TplPolicy`. -/
def buildTokenParamsFromPolicies (tokenName : GoStr) (policies : List TplPolicy)
    (expiresOn : Option Int) (allowedCIDRs : List GoStr) :
    Except BuildError TokenNewParams :=
  if policies.isEmpty then .error .noPolicies
  else
    match buildPolicyParams policies with
    | .error e => .error e
    | .ok ps =>
      .ok ⟨tokenName, ps, expiresOn,
        if allowedCIDRs = [] then none else some allowedCIDRs⟩


/-! ## Helper lemmas -/

theorem toNat_toLowerChar_of_upper {c : Char} (h : 65 ≤ c.toNat ∧ c.toNat ≤ 90) :
    (toLowerChar c).toNat = c.toNat + 32 := by
  have hv : (c.toNat + 32).isValidChar := Or.inl (by omega)
  rw [toLowerChar, if_pos h, Char.ofNat, dif_pos hv]
  simp [Char.ofNatAux, Char.toNat, UInt32.toNat, BitVec.toNat_ofNatLt]

theorem toLowerChar_eq_self {c : Char} (h : ¬(65 ≤ c.toNat ∧ c.toNat ≤ 90)) :
    toLowerChar c = c := by
  rw [toLowerChar, if_neg h]

theorem toLowerChar_idem (c : Char) : toLowerChar (toLowerChar c) = toLowerChar c := by
  by_cases h : 65 ≤ c.toNat ∧ c.toNat ≤ 90
  · have h2 := toNat_toLowerChar_of_upper h
    apply toLowerChar_eq_self
    omega
  · rw [toLowerChar_eq_self h]
    exact toLowerChar_eq_self h

theorem goIsSpace_toLowerChar (c : Char) : goIsSpace (toLowerChar c) = goIsSpace c := by
  by_cases h : 65 ≤ c.toNat ∧ c.toNat ≤ 90
  · have h2 := toNat_toLowerChar_of_upper h
    simp only [goIsSpace]
    rw [h2]
    have : ¬(c.toNat = 32 ∨ (9 ≤ c.toNat ∧ c.toNat ≤ 13) ∨ c.toNat = 0x85 ∨ c.toNat = 0xA0 ∨
      c.toNat = 0x1680 ∨ (0x2000 ≤ c.toNat ∧ c.toNat ≤ 0x200A) ∨ c.toNat = 0x2028 ∨
      c.toNat = 0x2029 ∨ c.toNat = 0x202F ∨ c.toNat = 0x205F ∨ c.toNat = 0x3000) := by omega
    simp [this]
    omega
  · rw [toLowerChar_eq_self h]

theorem mem_of_mem_dropWhile {p : Char → Bool} {x : Char} :
    ∀ {l : List Char}, x ∈ List.dropWhile p l → x ∈ l := by
  intro l
  induction l with
  | nil => simp [List.dropWhile]
  | cons a l ih =>
    simp only [List.dropWhile]
    split
    · intro h; exact List.mem_cons_of_mem _ (ih h)
    · exact id

theorem mem_of_mem_trimSpace {x : Char} {s : GoStr} (h : x ∈ trimSpace s) : x ∈ s := by
  unfold trimSpace at h
  rw [List.mem_reverse] at h
  have h2 := mem_of_mem_dropWhile h
  rw [List.mem_reverse] at h2
  exact mem_of_mem_dropWhile h2

theorem dropWhile_eq_self_of {p : Char → Bool} {l : List Char}
    (h : ∀ c ∈ l, p c = false) : List.dropWhile p l = l := by
  cases l with
  | nil => rfl
  | cons a l => simp [List.dropWhile, h a (List.mem_cons_self a l)]

theorem trimSpace_eq_self {s : GoStr} (h : ∀ c ∈ s, goIsSpace c = false) :
    trimSpace s = s := by
  unfold trimSpace
  rw [dropWhile_eq_self_of h]
  rw [dropWhile_eq_self_of (fun c hc => h c (List.mem_reverse.mp hc))]
  exact List.reverse_reverse s

theorem map_eq_self_of {f : Char → Char} {l : List Char} (h : ∀ c ∈ l, f c = c) :
    l.map f = l := by
  induction l with
  | nil => rfl
  | cons a l ih =>
    simp [h a (List.mem_cons_self a l), ih (fun c hc => h c (List.mem_cons_of_mem a hc))]

theorem filter_eq_self_of {p : Char → Bool} {l : List Char} (h : ∀ c ∈ l, p c = true) :
    l.filter p = l := by
  induction l with
  | nil => rfl
  | cons a l ih =>
    simp [List.filter, h a (List.mem_cons_self a l),
      ih (fun c hc => h c (List.mem_cons_of_mem a hc))]

/-! ## C9: idempotence of normalizeKey -/

/-- C9 counterexample: `normalizeKey` is not idempotent as claimed. For the
input ":\na" the first application strips the colon and exposes a leading
newline, which only the second application's TrimSpace removes. -/
theorem normalizeKey_not_idempotent_cex :
    normalizeKey (normalizeKey (gs ":\na")) ≠ normalizeKey (gs ":\na") := by decide

/-- C9 amended: normalizeKey is idempotent on every string whose whitespace
characters are all plain spaces (stripping separators can otherwise expose
non-space whitespace at the ends, which a second TrimSpace removes). -/
theorem normalizeKey_idempotent_on_space_free (s : GoStr)
    (h : ∀ c ∈ s, goIsSpace c = true → c = ' ') :
    normalizeKey (normalizeKey s) = normalizeKey s := by
  have hmem : ∀ c ∈ normalizeKey s, isSepChar c = false ∧ goIsSpace c = false := by
    intro c hc
    have hc' : c ∈ List.filter (fun c => !isSepChar c) (trimSpace (toLower s)) := hc
    obtain ⟨h2, hfil⟩ := List.mem_filter.mp hc'
    have h1 : isSepChar c = false := by simpa using hfil
    refine ⟨h1, ?_⟩
    have h3 : c ∈ toLower s := mem_of_mem_trimSpace h2
    obtain ⟨c0, hc0, hce⟩ := List.mem_map.mp h3
    by_contra hsp
    have hsp' : goIsSpace c = true := by
      cases hx : goIsSpace c
      · exact absurd hx hsp
      · rfl
    have : goIsSpace c0 = true := by
      rw [← hce] at hsp'
      rwa [goIsSpace_toLowerChar] at hsp'
    have hc0' : c0 = ' ' := h c0 hc0 this
    have : c = ' ' := by
      rw [← hce, hc0']
      exact toLowerChar_eq_self (by simp)
    rw [this] at h1
    simp [isSepChar] at h1
  have hfix : ∀ c ∈ normalizeKey s, toLowerChar c = c := by
    intro c hc
    have hc' : c ∈ List.filter (fun c => !isSepChar c) (trimSpace (toLower s)) := hc
    have h2 : c ∈ trimSpace (toLower s) := (List.mem_filter.mp hc').1
    have h3 : c ∈ toLower s := mem_of_mem_trimSpace h2
    obtain ⟨c0, _, hce⟩ := List.mem_map.mp h3
    rw [← hce]
    exact toLowerChar_idem c0
  show removeSeps (trimSpace (toLower (normalizeKey s))) = normalizeKey s
  rw [show toLower (normalizeKey s) = normalizeKey s from map_eq_self_of hfix]
  rw [trimSpace_eq_self (fun c hc => (hmem c hc).2)]
  exact filter_eq_self_of (fun c hc => by simp [(hmem c hc).1])

/-- C9 witness: the amended idempotence applied to the concrete input
"Zone:Read". -/
theorem normalizeKey_idempotent_on_space_free_witness :
    (∀ c ∈ gs "Zone:Read", goIsSpace c = true → c = ' ') ∧
      normalizeKey (normalizeKey (gs "Zone:Read")) = normalizeKey (gs "Zone:Read") :=
  ⟨by decide, normalizeKey_idempotent_on_space_free (gs "Zone:Read") (by decide)⟩

/-! ## C2: the disable sentinel in normalizeCIDRList -/

/-- C2 counterexample: a list containing the sentinel does NOT always yield
(empty, disabled, no error): an invalid entry before the sentinel makes the
call fail instead. -/
theorem normalizeCIDRList_sentinel_after_invalid_cex :
    (gs "0.0.0.0/32") ∈ [gs "not-a-cidr", gs "0.0.0.0/32"] ∧
      normalizeCIDRList [gs "not-a-cidr", gs "0.0.0.0/32"] =
        .error (.invalidCIDR (gs "not-a-cidr")) :=
  ⟨by decide, rfl⟩

/-- C2 amended: for a list containing the sentinel, the normalizer returns
(empty, disabled=true, no error) provided every entry before the first
sentinel occurrence trims to empty, is itself the sentinel, or is a valid
CIDR; entries after the sentinel are never examined, valid or not. -/
theorem normalizeCIDRList_sentinel_disables (pre suf : List GoStr) (x : GoStr)
    (hx : trimSpace x = gs "0.0.0.0/32")
    (hpre : ∀ v ∈ pre, trimSpace v = [] ∨ trimSpace v = gs "0.0.0.0/32" ∨
      goIsValidCIDR (trimSpace v) = true) :
    normalizeCIDRList (pre ++ x :: suf) = .ok ([], true) := by
  induction pre with
  | nil =>
    rw [List.nil_append, normalizeCIDRList, hx]
    rw [if_neg (by decide), if_pos rfl]
  | cons v pre ih =>
    have ih2 := ih (fun w hw => hpre w (List.mem_cons_of_mem v hw))
    rw [List.cons_append, normalizeCIDRList]
    rcases hpre v (List.mem_cons_self v pre) with h1 | h1 | h1
    · rw [h1, if_pos rfl]
      exact ih2
    · rw [h1, if_neg (by decide), if_pos rfl]
    · by_cases he : trimSpace v = []
      · rw [he, if_pos rfl]
        exact ih2
      · by_cases hs : trimSpace v = gs "0.0.0.0/32"
        · rw [hs, if_neg (by decide), if_pos rfl]
        · rw [if_neg he, if_neg hs, if_pos h1, ih2]

/-- C2 witness: the amended sentinel rule applied to a concrete list with a
valid entry and a blank before the (surrounded-by-spaces) sentinel and an
invalid entry after it. -/
theorem normalizeCIDRList_sentinel_disables_witness :
    normalizeCIDRList [gs "10.0.0.1/32", gs " ", gs " 0.0.0.0/32 ", gs "garbage"] =
      .ok ([], true) :=
  normalizeCIDRList_sentinel_disables [gs "10.0.0.1/32", gs " "] [gs "garbage"]
    (gs " 0.0.0.0/32 ") (by decide) (by decide)

/-! ## C3: permission matching is entry-major, not strategy-major -/

/-- C3 counterexample: with a catalog whose first entry matches the input
"p1" by normalized name and whose second entry's id equals "p1" exactly,
resolution returns the first (name-matching) entry, not the id-matching one:
the three strategies are tried per catalog entry, not over the whole catalog. -/
theorem matchPermission_name_beats_later_id_cex :
    equalFold (gs "p1") (gs "p1") = true ∧
      normalizeKey (gs "p1") = normalizeKey (gs "p1") ∧
      matchPermissionGroups
          [⟨gs "A", gs "p1", []⟩, ⟨gs "p1", gs "B", []⟩] [gs "p1"] =
        .ok ([gs "A"], [⟨gs "A", gs "p1", []⟩]) :=
  ⟨by decide, rfl, rfl⟩

/-- C3 amended: matching scans catalog entries in order, trying id, name and
alias key on each entry; the first entry matching by any strategy wins, so a
later entry's exact id match cannot beat an earlier entry's name match. -/
theorem matchPermission_first_entry_wins (pre suf : List PermissionGroup)
    (g : PermissionGroup) (inp : GoStr)
    (hpre : ∀ g2 ∈ pre, entryMatches inp g2 = false)
    (hg : entryMatches inp g = true) :
    matchPermissionGroups (pre ++ g :: suf) [inp] = .ok ([g.id], [g]) := by
  have hfind : findMatch (pre ++ g :: suf) inp = some g := by
    unfold findMatch
    induction pre with
    | nil => simp [List.find?_cons_of_pos, hg]
    | cons a pre ih =>
      rw [List.cons_append, List.find?_cons_of_neg _ (by simp [hpre a (List.mem_cons_self a pre)])]
      exact ih (fun g2 hm => hpre g2 (List.mem_cons_of_mem a hm))
  unfold matchPermissionGroups
  rw [if_neg (by simp)]
  unfold matchPermissionLoop
  rw [hfind]
  rfl

/-- C3 witness: the first-entry-wins rule applied to a concrete catalog
whose first entry does not match and whose second resolves "Zone:Read" by
alias key. -/
theorem matchPermission_first_entry_wins_witness :
    matchPermissionGroups
        ([⟨gs "X", gs "Y", []⟩] ++ (⟨gs "p1", gs "Zone Read", gs "zone.read"⟩ : PermissionGroup) :: [])
        [gs "Zone:Read"] =
      .ok ([gs "p1"], [⟨gs "p1", gs "Zone Read", gs "zone.read"⟩]) :=
  matchPermission_first_entry_wins [⟨gs "X", gs "Y", []⟩] []
    ⟨gs "p1", gs "Zone Read", gs "zone.read"⟩ (gs "Zone:Read") (by decide) (by decide)

/-! ## C6: all-or-nothing permission resolution -/

theorem findMatch_spec {groups : List PermissionGroup} {inp : GoStr} {g : PermissionGroup}
    (h : findMatch groups inp = some g) : g ∈ groups ∧ entryMatches inp g = true :=
  ⟨List.mem_of_find?_eq_some h, List.find?_some h⟩

theorem matchPermissionLoop_ok (groups : List PermissionGroup) :
    ∀ (inputs : List GoStr) (ids : List GoStr) (es : List PermissionGroup),
      matchPermissionLoop groups inputs = .ok (ids, es) →
      ids.length = inputs.length ∧ es.length = inputs.length ∧
      ∀ i inp, inputs.get? i = some inp →
        ∃ g, findMatch groups inp = some g ∧ ids.get? i = some g.id ∧ es.get? i = some g := by
  intro inputs
  induction inputs with
  | nil =>
    intro ids es h
    rw [matchPermissionLoop] at h
    injection h with h
    injection h with h1 h2
    subst h1; subst h2
    refine ⟨rfl, rfl, ?_⟩
    intro i inp h
    simp [List.get?] at h
  | cons inp0 rest ih =>
    intro ids es h
    rw [matchPermissionLoop] at h
    cases hf : findMatch groups inp0 with
    | none => rw [hf] at h; exact absurd h (by simp)
    | some g0 =>
      rw [hf] at h
      cases hr : matchPermissionLoop groups rest with
      | error e => rw [hr] at h; exact absurd h (by simp)
      | ok pr =>
        obtain ⟨ids1, es1⟩ := pr
        rw [hr] at h
        injection h with h
        injection h with h1 h2
        subst h1; subst h2
        obtain ⟨hl1, hl2, hspec⟩ := ih ids1 es1 hr
        refine ⟨by simp [hl1], by simp [hl2], ?_⟩
        intro i inp hi
        cases i with
        | zero =>
          simp only [List.get?] at hi
          injection hi with hi
          subst hi
          exact ⟨g0, hf, rfl, rfl⟩
        | succ j =>
          simp only [List.get?] at hi ⊢
          exact hspec j inp hi

theorem matchPermissionLoop_err (groups : List PermissionGroup) :
    ∀ (inputs : List GoStr), (∃ inp ∈ inputs, findMatch groups inp = none) →
      ∃ bad ∈ inputs, findMatch groups bad = none ∧
        matchPermissionLoop groups inputs = .error (.permissionNotFound bad) := by
  intro inputs
  induction inputs with
  | nil => rintro ⟨inp, h, -⟩; exact absurd h (by simp)
  | cons inp0 rest ih =>
    rintro ⟨inp, hmem, hnone⟩
    cases hf : findMatch groups inp0 with
    | none =>
      refine ⟨inp0, List.mem_cons_self inp0 rest, hf, ?_⟩
      rw [matchPermissionLoop, hf]
    | some g0 =>
      have hinp : inp ∈ rest := by
        rcases List.mem_cons.mp hmem with h | h
        · subst h; rw [hf] at hnone; exact absurd hnone (by simp)
        · exact h
      obtain ⟨bad, hb1, hb2, hb3⟩ := ih ⟨inp, hinp, hnone⟩
      refine ⟨bad, List.mem_cons_of_mem inp0 hb1, hb2, ?_⟩
      rw [matchPermissionLoop, hf, hb3]

/-- C6: permission resolution is all-or-nothing. Empty input fails with the
no-permissions error; if any input has no catalog match the whole call fails
with a not-found error naming an unmatched input and no partial result; on
success there is one matched id (and entry) per input in input order, each
from a catalog entry that matches that input. -/
theorem matchPermissionGroups_all_or_nothing (groups : List PermissionGroup)
    (inputs : List GoStr) :
    (inputs = [] → matchPermissionGroups groups inputs = .error .noPermissionsSpecified) ∧
    ((∃ inp ∈ inputs, findMatch groups inp = none) →
      ∃ bad ∈ inputs, findMatch groups bad = none ∧
        matchPermissionGroups groups inputs = .error (.permissionNotFound bad)) ∧
    (∀ ids es, matchPermissionGroups groups inputs = .ok (ids, es) →
      inputs ≠ [] ∧ ids.length = inputs.length ∧ es.length = inputs.length ∧
      ∀ i inp, inputs.get? i = some inp →
        ∃ g, g ∈ groups ∧ entryMatches inp g = true ∧
          ids.get? i = some g.id ∧ es.get? i = some g) := by
  refine ⟨?_, ?_, ?_⟩
  · intro h; subst h; rfl
  · intro hex
    obtain ⟨bad, hb1, hb2, hb3⟩ := matchPermissionLoop_err groups inputs hex
    have hne : inputs ≠ [] := by
      intro h; subst h; exact absurd hb1 (by simp)
    exact ⟨bad, hb1, hb2, by rw [matchPermissionGroups, if_neg hne]; exact hb3⟩
  · intro ids es h
    have hne : inputs ≠ [] := by
      intro hn
      rw [matchPermissionGroups, if_pos hn] at h
      exact absurd h (by simp)
    rw [matchPermissionGroups, if_neg hne] at h
    obtain ⟨h1, h2, hspec⟩ := matchPermissionLoop_ok groups inputs ids es h
    refine ⟨hne, h1, h2, ?_⟩
    intro i inp hi
    obtain ⟨g, hg1, hg2, hg3⟩ := hspec i inp hi
    obtain ⟨hm, hmatch⟩ := findMatch_spec hg1
    exact ⟨g, hm, hmatch, hg2, hg3⟩

/-- C6 witness: the all-or-nothing behaviour at concrete inputs — the empty
input list errors, and a list with an unmatched input errors naming it. -/
theorem matchPermissionGroups_all_or_nothing_witness :
    matchPermissionGroups [⟨gs "p1", gs "Zone Read", gs "zone.read"⟩] [] =
        .error .noPermissionsSpecified ∧
      ∃ bad ∈ [gs "Zone:Read", gs "Nope"],
        findMatch [(⟨gs "p1", gs "Zone Read", gs "zone.read"⟩ : PermissionGroup)] bad = none ∧
          matchPermissionGroups [⟨gs "p1", gs "Zone Read", gs "zone.read"⟩]
              [gs "Zone:Read", gs "Nope"] =
            .error (.permissionNotFound bad) :=
  ⟨(matchPermissionGroups_all_or_nothing _ []).1 rfl,
    (matchPermissionGroups_all_or_nothing _ _).2.1 ⟨gs "Nope", by decide, by decide⟩⟩


/-! ## C7: default inheritance in LoadZoneConfig -/

theorem applyInheritDefaults_perms (cfg : Settings) (zc : ZoneConfig)
    (h1 : zc.inheritDefaults = true) (h2 : zc.permissions = []) :
    (applyInheritDefaults cfg zc).permissions = cfg.defaultPermissions := by
  simp only [applyInheritDefaults, h1, if_true]
  split_ifs with hA hB hC <;> simp_all

theorem applyInheritDefaults_cidrs (cfg : Settings) (zc : ZoneConfig)
    (h1 : zc.inheritDefaults = true) (h2 : zc.allowedCIDRs = []) :
    (applyInheritDefaults cfg zc).allowedCIDRs = cfg.defaultAllowedCIDRs := by
  simp only [applyInheritDefaults, h1, if_true]
  split_ifs with hA hB hC <;> simp_all

theorem applyInheritDefaults_no_inherit (cfg : Settings) (zc : ZoneConfig)
    (h1 : zc.inheritDefaults = false) :
    applyInheritDefaults cfg zc = zc := by
  simp [applyInheritDefaults, h1]

theorem applyInheritDefaults_perms_present (cfg : Settings) (zc : ZoneConfig)
    (h2 : zc.permissions ≠ []) :
    (applyInheritDefaults cfg zc).permissions = zc.permissions := by
  simp only [applyInheritDefaults]
  split_ifs <;> simp_all

theorem applyInheritDefaults_cidrs_present (cfg : Settings) (zc : ZoneConfig)
    (h2 : zc.allowedCIDRs ≠ []) :
    (applyInheritDefaults cfg zc).allowedCIDRs = zc.allowedCIDRs := by
  simp only [applyInheritDefaults]
  split_ifs <;> simp_all

theorem applyInheritDefaults_fields (cfg : Settings) (zc : ZoneConfig) :
    (applyInheritDefaults cfg zc).zoneID = zc.zoneID ∧
      (applyInheritDefaults cfg zc).ttl = zc.ttl ∧
      (applyInheritDefaults cfg zc).templateFile = zc.templateFile ∧
      (applyInheritDefaults cfg zc).templateInline = zc.templateInline ∧
      (applyInheritDefaults cfg zc).tplVars = zc.tplVars ∧
      (applyInheritDefaults cfg zc).inheritDefaults = zc.inheritDefaults := by
  simp only [applyInheritDefaults]
  split_ifs <;> simp_all

/-- C7: a zone record with inheritDefaults=true that omits permissions or
allowedCIDRs gets the corresponding global defaults copied in before
LoadZoneConfig returns it; a record with inheritDefaults=false, or a field
locally present (nonempty), is returned unchanged in that field, and all
other fields always pass through untouched. -/
theorem loadZoneConfig_inherit_defaults (cfg : Settings)
    (zones : List (GoStr × ZoneValue)) (name : GoStr) (zc : ZoneConfig)
    (hz : cfg.zones = some zones) (hl : lookupZone zones name = some (.extended zc)) :
    ∃ zc2, loadZoneConfig cfg name = .ok (zc2.zoneID, some zc2) ∧
      (zc.inheritDefaults = true → zc.permissions = [] →
        zc2.permissions = cfg.defaultPermissions) ∧
      (zc.inheritDefaults = true → zc.allowedCIDRs = [] →
        zc2.allowedCIDRs = cfg.defaultAllowedCIDRs) ∧
      (zc.inheritDefaults = false → zc2 = zc) ∧
      (zc.permissions ≠ [] → zc2.permissions = zc.permissions) ∧
      (zc.allowedCIDRs ≠ [] → zc2.allowedCIDRs = zc.allowedCIDRs) ∧
      zc2.zoneID = zc.zoneID ∧ zc2.ttl = zc.ttl ∧
      zc2.templateFile = zc.templateFile ∧ zc2.templateInline = zc.templateInline ∧
      zc2.tplVars = zc.tplVars ∧ zc2.inheritDefaults = zc.inheritDefaults := by
  refine ⟨applyInheritDefaults cfg zc, ?_,
    applyInheritDefaults_perms cfg zc, applyInheritDefaults_cidrs cfg zc,
    applyInheritDefaults_no_inherit cfg zc,
    applyInheritDefaults_perms_present cfg zc, applyInheritDefaults_cidrs_present cfg zc,
    (applyInheritDefaults_fields cfg zc).1, (applyInheritDefaults_fields cfg zc).2.1,
    (applyInheritDefaults_fields cfg zc).2.2.1, (applyInheritDefaults_fields cfg zc).2.2.2.1,
    (applyInheritDefaults_fields cfg zc).2.2.2.2.1,
    (applyInheritDefaults_fields cfg zc).2.2.2.2.2⟩
  simp only [loadZoneConfig, hz, hl]

/-- C7 witness: Scenario C — a zone record with inheritDefaults=true, no
local allowedCIDRs, and global default ["10.0.0.1/32"] resolves with CIDRs
["10.0.0.1/32"]. -/
theorem loadZoneConfig_inherit_defaults_witness :
    ∃ zc2, loadZoneConfig
        (⟨[], [gs "10.0.0.1/32"],
          some [(gs "dev", .extended ⟨gs "bbbb", [], [], [], [], [], [], true⟩)]⟩ : Settings)
        (gs "dev") = .ok (zc2.zoneID, some zc2) ∧
      zc2.allowedCIDRs = [gs "10.0.0.1/32"] := by
  obtain ⟨zc2, hok, _, hcidr, _⟩ :=
    loadZoneConfig_inherit_defaults
      (⟨[], [gs "10.0.0.1/32"],
        some [(gs "dev", .extended ⟨gs "bbbb", [], [], [], [], [], [], true⟩)]⟩ : Settings)
      [(gs "dev", .extended ⟨gs "bbbb", [], [], [], [], [], [], true⟩)] (gs "dev")
      ⟨gs "bbbb", [], [], [], [], [], [], true⟩ rfl rfl
  exact ⟨zc2, hok, hcidr rfl rfl⟩

/-! ## C4: zone-name normalization applies to ResolveZoneID, not to the
LoadZoneConfig lookup -/

/-- C4 counterexample: with a config.json zone table containing
"example.com", LoadZoneConfig resolves "example.com" but fails on
"Example.COM." even though the two spellings normalize identically — the
lookup uses the name verbatim. -/
theorem loadZoneConfig_no_normalization_cex :
    normalizeZoneName (gs "Example.COM.") = normalizeZoneName (gs "example.com") ∧
      loadZoneConfig
          (⟨[], [], some [(gs "example.com", .simple (gs "aaaa"))]⟩ : Settings)
          (gs "example.com") = .ok (gs "aaaa", none) ∧
      loadZoneConfig
          (⟨[], [], some [(gs "example.com", .simple (gs "aaaa"))]⟩ : Settings)
          (gs "Example.COM.") = .error (.zoneNotFound (gs "Example.COM.")) :=
  ⟨by decide, rfl, rfl⟩

/-- C4 amended: the LoadZoneConfig lookup is verbatim — any name that is not
literally a key of the zones map yields ZoneNotFound, with no trimming,
lowercasing or dot-stripping; normalization is applied only by the
zones.go path (ResolveZoneID), where two spellings with equal normalized
forms resolve identically. -/
theorem zone_lookup_normalization_split :
    (∀ (cfg : Settings) (zones : List (GoStr × ZoneValue)) (name : GoStr),
      cfg.zones = some zones → (∀ p ∈ zones, p.1 ≠ name) →
      loadZoneConfig cfg name = .error (.zoneNotFound name)) ∧
    (∀ (zones : List (GoStr × GoStr)) (n1 n2 id : GoStr),
      normalizeZoneName n1 = normalizeZoneName n2 →
      (resolveZoneID zones n1 = .ok id ↔ resolveZoneID zones n2 = .ok id)) := by
  constructor
  · intro cfg zones name hz hmiss
    have hfind : List.find? (fun p => p.1 == name) zones = none :=
      List.find?_eq_none.mpr (fun x hx => by simp [hmiss x hx])
    have hlz : lookupZone zones name = none := by rw [lookupZone, hfind]; rfl
    simp only [loadZoneConfig, hz, hlz]
  · intro zones n1 n2 id h
    simp only [resolveZoneID, h]
    by_cases he : normalizeZoneName n2 = []
    · rw [if_pos he, if_pos he]
    · rw [if_neg he, if_neg he]
      cases hf : (List.find? (fun p => p.1 == normalizeZoneName n2) zones).map (·.2) with
      | none => simp
      | some i =>
        by_cases hi : i = []
        · simp [hi]
        · simp [hi]

/-- C4 witness: the verbatim-lookup rule at a concrete missing name, and the
ResolveZoneID collision of "Example.COM." with "example.com". -/
theorem zone_lookup_normalization_split_witness :
    loadZoneConfig (⟨[], [], some [(gs "example.com", .simple (gs "aaaa"))]⟩ : Settings)
        (gs "other.com") = .error (.zoneNotFound (gs "other.com")) ∧
      (resolveZoneID [(gs "example.com", gs "aaaa")] (gs "Example.COM.") = .ok (gs "aaaa") ↔
        resolveZoneID [(gs "example.com", gs "aaaa")] (gs "example.com") = .ok (gs "aaaa")) :=
  ⟨zone_lookup_normalization_split.1 _ [(gs "example.com", .simple (gs "aaaa"))] _ rfl
      (by decide),
    zone_lookup_normalization_split.2 [(gs "example.com", gs "aaaa")]
      (gs "Example.COM.") (gs "example.com") (gs "aaaa") (by decide)⟩

/-! ## C5 and C8: RenderPolicies -/

theorem renderPolicies_inline (readFile : GoStr → Option GoStr)
    (path inlineTpl : GoStr) (vars : List (GoStr × JsonVal)) (h : inlineTpl ≠ []) :
    renderPolicies readFile path inlineTpl vars =
      match parseTemplateGo (inlineTpl.length + 1) inlineTpl with
      | none => .error .templateParseError
      | some nodes =>
        match parseJsonTop (trimSpace (execTemplateNodes nodes vars)) with
        | some v =>
          match decodePolicies v with
          | some ps => .ok ps
          | none => .error (.templateOutputInvalid (trimSpace (execTemplateNodes nodes vars)))
        | none => .error (.templateOutputInvalid (trimSpace (execTemplateNodes nodes vars))) := by
  rw [renderPolicies, if_neg (fun hc => h hc.2), if_pos h]

/-- C5 counterexample: the template from Scenario D renders the missing
variable as text/template's `<no value>` placeholder, not as the empty
string, so the rendered text is `["<no value>"]` (which then fails the
JSON-as-policy parse), not `[""]` as claimed. -/
theorem renderPolicies_missing_var_no_value_cex :
    renderPolicies (fun _ => none) [] (gs "[\"\x7b\x7b .Foo \x7d\x7d\"]") [] =
        .error (.templateOutputInvalid (gs "[\"<no value>\"]")) ∧
      gs "[\"<no value>\"]" ≠ gs "[\"\"]" :=
  ⟨rfl, by decide⟩

/-- C5 amended: for every variable map in which "Foo" is absent, rendering
the template `["\x7b\x7b .Foo \x7d\x7d"]` never fails at render time: the
missing variable renders as `<no value>`, producing `["<no value>"]`, which
fails the JSON-as-policy parse with a TemplateOutputInvalid error carrying
that rendered text. -/
theorem renderPolicies_missing_var_renders_no_value
    (readFile : GoStr → Option GoStr) (vars : List (GoStr × JsonVal))
    (h : lookupVar vars (gs "Foo") = none) :
    renderPolicies readFile [] (gs "[\"\x7b\x7b .Foo \x7d\x7d\"]") vars =
      .error (.templateOutputInvalid (gs "[\"<no value>\"]")) := by
  rw [renderPolicies_inline _ _ _ _ (by decide)]
  have hp : parseTemplateGo ((gs "[\"\x7b\x7b .Foo \x7d\x7d\"]").length + 1)
      (gs "[\"\x7b\x7b .Foo \x7d\x7d\"]") =
      some [.lit (gs "[\""), .field (gs "Foo"), .lit (gs "\"]")] := rfl
  simp only [hp]
  have hexec : execTemplateNodes [.lit (gs "[\""), .field (gs "Foo"), .lit (gs "\"]")] vars =
      gs "[\"<no value>\"]" := by
    simp only [execTemplateNodes, List.foldr, renderNode, h]
    rfl
  rw [hexec]
  rfl

/-- C5 witness: the amended statement applied to the empty variable map. -/
theorem renderPolicies_missing_var_renders_no_value_witness :
    lookupVar [] (gs "Foo") = none ∧
      renderPolicies (fun _ => none) [] (gs "[\"\x7b\x7b .Foo \x7d\x7d\"]") [] =
        .error (.templateOutputInvalid (gs "[\"<no value>\"]")) :=
  ⟨rfl, renderPolicies_missing_var_renders_no_value (fun _ => none) [] rfl⟩

/-- C8 counterexample: with both a template path and an inline template
supplied, RenderPolicies succeeds (from the inline template) instead of
rejecting the call — exactly-one is not enforced. -/
theorem renderPolicies_both_sources_cex :
    (gs "policy.tmpl" ≠ [] ∧ gs "[]" ≠ []) ∧
      renderPolicies (fun _ => none) (gs "policy.tmpl") (gs "[]") [] = .ok [] :=
  ⟨⟨by decide, by decide⟩, rfl⟩

/-- C8 amended: RenderPolicies requires at least one source — neither
present is the NoTemplateSource error — and when both are supplied the
inline template takes precedence: the result is the same as with the inline
template alone, the file never being read. -/
theorem renderPolicies_source_selection :
    (∀ (readFile : GoStr → Option GoStr) (vars : List (GoStr × JsonVal)),
      renderPolicies readFile [] [] vars = .error .noTemplateSource) ∧
    (∀ (readFile : GoStr → Option GoStr) (path inlineTpl : GoStr)
        (vars : List (GoStr × JsonVal)), inlineTpl ≠ [] →
      renderPolicies readFile path inlineTpl vars = renderPolicies readFile [] inlineTpl vars) := by
  constructor
  · intro rf vars; rfl
  · intro rf path inlineTpl vars h
    rw [renderPolicies_inline rf path inlineTpl vars h,
      renderPolicies_inline rf [] inlineTpl vars h]

/-- C8 witness: the source-selection rule at concrete inputs. -/
theorem renderPolicies_source_selection_witness :
    renderPolicies (fun _ => none) [] [] [] = .error .noTemplateSource ∧
      renderPolicies (fun _ => none) (gs "f") (gs "[]") [] =
        renderPolicies (fun _ => none) [] (gs "[]") [] :=
  ⟨renderPolicies_source_selection.1 (fun _ => none) [],
    renderPolicies_source_selection.2 (fun _ => none) (gs "f") (gs "[]") [] (by decide)⟩

/-! ## C1: TTL resolution -/

/-- C1: the zone record's TTL overwrites the caller's -ttl flag value. With
flags.ttl = 1h and a zone record whose ttl is "2h", the resolved TTL is 2h,
not the override's 1h; the expiry then follows the zone TTL (and a zero
resolved TTL yields no expiry, a positive one yields creation plus TTL;
with no zone record, or an empty zone ttl, the flag value stands). -/
theorem ttl_zone_record_overrides_explicit_flag :
    resolveTTL 3600000000000 (some ⟨gs "bbbb", [], [], gs "2h", [], [], [], false⟩) =
        7200000000000 ∧
      (7200000000000 : GoDuration) ≠ 3600000000000 ∧
      computeExpiry 0 (7200000000000 : GoDuration) = some 7200000000000 ∧
      computeExpiry 0 (0 : GoDuration) = none ∧
      (∀ t : GoDuration, resolveTTL t none = t) ∧
      (∀ t : GoDuration, resolveTTL t (some ⟨gs "bbbb", [], [], [], [], [], [], false⟩) = t) :=
  ⟨rfl, by decide, rfl, rfl, fun _ => rfl, fun _ => rfl⟩

/-! ## C10: buildTokenParamsFromPolicies -/

theorem buildPolicyParam_ok_effect {p : TplPolicy} {pp : TokenPolicyParam}
    (h : buildPolicyParam p = .ok pp) :
    (pp.effect = gs "allow" ∨ pp.effect = gs "deny") ∧
      (p.effect = [] → pp.effect = gs "allow") := by
  simp only [buildPolicyParam] at h
  by_cases h1 : (if p.effect = [] then gs "allow" else p.effect) = gs "allow"
  · rw [if_pos h1] at h
    injection h with h
    subst h
    exact ⟨Or.inl rfl, fun _ => rfl⟩
  · rw [if_neg h1] at h
    by_cases h2 : (if p.effect = [] then gs "allow" else p.effect) = gs "deny"
    · rw [if_pos h2] at h
      injection h with h
      subst h
      refine ⟨Or.inr rfl, fun he => absurd (by rw [if_pos he]) h1⟩
    · rw [if_neg h2] at h
      exact absurd h (by simp)

theorem buildPolicyParams_ok :
    ∀ (policies : List TplPolicy) (ps : List TokenPolicyParam),
      buildPolicyParams policies = .ok ps →
      ps.length = policies.length ∧
      (∀ pp ∈ ps, pp.effect = gs "allow" ∨ pp.effect = gs "deny") ∧
      (∀ i p, policies.get? i = some p → p.effect = [] →
        ∃ pp, ps.get? i = some pp ∧ pp.effect = gs "allow") := by
  intro policies
  induction policies with
  | nil =>
    intro ps h
    rw [buildPolicyParams] at h
    injection h with h
    subst h
    refine ⟨rfl, by simp, ?_⟩
    intro i p h
    simp [List.get?] at h
  | cons p0 rest ih =>
    intro ps h
    rw [buildPolicyParams] at h
    cases hb : buildPolicyParam p0 with
    | error e => rw [hb] at h; exact absurd h (by simp)
    | ok pp0 =>
      rw [hb] at h
      cases hr : buildPolicyParams rest with
      | error e => rw [hr] at h; exact absurd h (by simp)
      | ok pps =>
        rw [hr] at h
        injection h with h
        subst h
        obtain ⟨hl, hall, hidx⟩ := ih pps hr
        obtain ⟨he1, he2⟩ := buildPolicyParam_ok_effect hb
        refine ⟨by simp [hl], ?_, ?_⟩
        · intro pp hpp
          rcases List.mem_cons.mp hpp with h | h
          · subst h; exact he1
          · exact hall pp h
        · intro i p hi hpe
          cases i with
          | zero =>
            simp only [List.get?] at hi
            injection hi with hi
            subst hi
            exact ⟨pp0, rfl, he2 hpe⟩
          | succ j =>
            simp only [List.get?] at hi ⊢
            exact hidx j p hi hpe

theorem buildPolicyParams_err :
    ∀ (policies : List TplPolicy),
      (∃ p ∈ policies, p.effect ≠ [] ∧ p.effect ≠ gs "allow" ∧ p.effect ≠ gs "deny") →
      ∃ bad, buildPolicyParams policies = .error (.invalidEffect bad) := by
  intro policies
  induction policies with
  | nil => rintro ⟨p, hp, -⟩; exact absurd hp (by simp)
  | cons p0 rest ih =>
    rintro ⟨p, hmem, hne, hna, hnd⟩
    by_cases hb : ∃ pp0, buildPolicyParam p0 = .ok pp0
    · obtain ⟨pp0, hb⟩ := hb
      have hp0 : ¬(p0.effect ≠ [] ∧ p0.effect ≠ gs "allow" ∧ p0.effect ≠ gs "deny") := by
        rintro ⟨q1, q2, q3⟩
        simp only [buildPolicyParam, if_neg q1] at hb
        rw [if_neg q2, if_neg q3] at hb
        exact absurd hb (by simp)
      have hmem2 : p ∈ rest := by
        rcases List.mem_cons.mp hmem with h | h
        · subst h; exact absurd ⟨hne, hna, hnd⟩ hp0
        · exact h
      obtain ⟨bad, hbad⟩ := ih ⟨p, hmem2, hne, hna, hnd⟩
      refine ⟨bad, ?_⟩
      rw [buildPolicyParams, hb, hbad]
    · cases hbe : buildPolicyParam p0 with
      | ok pp0 => exact absurd ⟨pp0, hbe⟩ hb
      | error e =>
        have : ∃ bad, e = BuildError.invalidEffect bad := by
          simp only [buildPolicyParam] at hbe
          by_cases h1 : (if p0.effect = [] then gs "allow" else p0.effect) = gs "allow"
          · rw [if_pos h1] at hbe; exact absurd hbe (by simp)
          · rw [if_neg h1] at hbe
            by_cases h2 : (if p0.effect = [] then gs "allow" else p0.effect) = gs "deny"
            · rw [if_pos h2] at hbe; exact absurd hbe (by simp)
            · rw [if_neg h2] at hbe
              injection hbe with hbe
              exact ⟨_, hbe.symm⟩
        obtain ⟨bad, hbad⟩ := this
        subst hbad
        refine ⟨bad, ?_⟩
        rw [buildPolicyParams, hbe]

/-- C10: building token parameters from pre-rendered policies requires a
nonempty policy list; an empty-string effect is treated as allow; any other
effect besides allow and deny fails the whole build; and every successful
build has one policy parameter per input policy, each with effect allow or
deny. -/
theorem buildTokenParams_effect_validation (tokenName : GoStr)
    (policies : List TplPolicy) (expiresOn : Option Int) (allowedCIDRs : List GoStr) :
    (policies = [] → buildTokenParamsFromPolicies tokenName policies expiresOn allowedCIDRs =
      .error .noPolicies) ∧
    ((∃ p ∈ policies, p.effect ≠ [] ∧ p.effect ≠ gs "allow" ∧ p.effect ≠ gs "deny") →
      ∃ bad, buildTokenParamsFromPolicies tokenName policies expiresOn allowedCIDRs =
        .error (.invalidEffect bad)) ∧
    (∀ params, buildTokenParamsFromPolicies tokenName policies expiresOn allowedCIDRs =
        .ok params →
      params.policies ≠ [] ∧ params.policies.length = policies.length ∧
      (∀ pp ∈ params.policies, pp.effect = gs "allow" ∨ pp.effect = gs "deny") ∧
      (∀ i p, policies.get? i = some p → p.effect = [] →
        ∃ pp, params.policies.get? i = some pp ∧ pp.effect = gs "allow")) := by
  refine ⟨?_, ?_, ?_⟩
  · intro h; subst h; rfl
  · intro hex
    have hne : policies ≠ [] := by
      rintro rfl
      obtain ⟨p, hp, -⟩ := hex
      exact absurd hp (by simp)
    obtain ⟨bad, hbad⟩ := buildPolicyParams_err policies hex
    refine ⟨bad, ?_⟩
    rw [buildTokenParamsFromPolicies,
      if_neg (by simp [List.isEmpty_iff, hne]), hbad]
  · intro params h
    cases hpol : policies with
    | nil =>
      subst hpol
      rw [buildTokenParamsFromPolicies] at h
      exact absurd h (by simp)
    | cons q qs =>
      subst hpol
      rw [buildTokenParamsFromPolicies, if_neg (by simp)] at h
      cases hb : buildPolicyParams (q :: qs) with
      | error e => rw [hb] at h; exact absurd h (by simp)
      | ok ps =>
        rw [hb] at h
        injection h with h
        subst h
        obtain ⟨hl, hall, hidx⟩ := buildPolicyParams_ok (q :: qs) ps hb
        refine ⟨?_, hl, hall, hidx⟩
        intro hn
        have hn2 : ps = [] := hn
        subst hn2
        simp at hl

/-- C10 witness: the build rules at concrete inputs — empty list errors, a
bogus effect errors with the invalid-effect error, and the empty-string
effect builds as allow. -/
theorem buildTokenParams_effect_validation_witness :
    buildTokenParamsFromPolicies (gs "t") [] none [] = .error .noPolicies ∧
      (∃ bad, buildTokenParamsFromPolicies (gs "t") [⟨[], gs "bogus", [], []⟩] none [] =
        .error (.invalidEffect bad)) ∧
      (∀ pp ∈ (⟨gs "t", [⟨gs "allow", [], []⟩], none, none⟩ : TokenNewParams).policies,
        pp.effect = gs "allow" ∨ pp.effect = gs "deny") := by
  refine ⟨(buildTokenParams_effect_validation (gs "t") [] none []).1 rfl,
    (buildTokenParams_effect_validation (gs "t") [⟨[], gs "bogus", [], []⟩] none []).2.1
      ⟨⟨[], gs "bogus", [], []⟩, by simp, by decide, by decide, by decide⟩,
    ((buildTokenParams_effect_validation (gs "t") [⟨[], [], [], []⟩] none []).2.2
      ⟨gs "t", [⟨gs "allow", [], []⟩], none, none⟩ rfl).2.2.1⟩

end Cftoken
